import Mathlib

/-!
Shallow embedding of the `melgui` repository's core (src/interface/gui.py and
src/state.py): the declaration parser (comment stripping, indentation
measurement, line splitting, parent inference via a control stack, explicit
`-p`/`-parent` extraction), the `Control` and `Gui` runtime structures, and the
`CallbackNotifier` pub/sub mixin.  Python dictionaries are modelled as
association lists in insertion order, Python callables as tagged values, and
Python exceptions as an explicit error type threaded through `Except`.
-/

namespace Melgui

/-- The Python exceptions the embedded code can raise.  `typeError` carries the
formatted message string. -/
inductive PyErr where
  | indexError
  | assertionError
  | typeError (msg : String)
  deriving DecidableEq, Repr

instance {ε α : Type} [DecidableEq ε] [DecidableEq α] : DecidableEq (Except ε α) :=
  fun x y =>
    match x, y with
    | .ok a, .ok b =>
        if h : a = b then isTrue (by rw [h]) else isFalse (fun he => by cases he; exact h rfl)
    | .error a, .error b =>
        if h : a = b then isTrue (by rw [h]) else isFalse (fun he => by cases he; exact h rfl)
    | .ok _, .error _ => isFalse (fun he => by cases he)
    | .error _, .ok _ => isFalse (fun he => by cases he)

/-- `str.strip()`: drop leading and trailing whitespace (structural
implementation so that terms evaluate by kernel reduction). -/
def pyStrip (s : String) : String :=
  ((s.toList.dropWhile Char.isWhitespace).reverse.dropWhile Char.isWhitespace).reverse.asString

/-- Split a character list at newline characters (`s.splitlines()`; a trailing
newline yields a final empty piece here, which the blank-line filter removes
just as it removes the blank lines Python's `splitlines` would keep out). -/
def splitLinesAux : List Char → List Char → List (List Char)
  | [], acc => [acc.reverse]
  | c :: rest, acc =>
    if c = '\n' then acc.reverse :: splitLinesAux rest []
    else splitLinesAux rest (c :: acc)

/-- `s.splitlines()` on newline characters. -/
def pySplitlines (s : String) : List String :=
  (splitLinesAux s.toList []).map List.asString

/-- `' '.join(tokens)`. -/
def joinSpace : List String → String
  | [] => ""
  | [t] => t
  | t :: rest => t ++ " " ++ joinSpace rest

/-- Split a character list at whitespace, keeping the (possibly empty) runs
between separators. -/
def splitWsAux : List Char → List Char → List (List Char)
  | [], acc => [acc.reverse]
  | c :: rest, acc =>
    if Char.isWhitespace c then acc.reverse :: splitWsAux rest []
    else splitWsAux rest (c :: acc)

/-- `str.lower()` (ASCII case mapping, all these flag names are ASCII). -/
def pyToLower (s : String) : String :=
  (s.toList.map Char.toLower).asString

/-- The double-quote character (written via its code point to keep character
literals simple). -/
def dquote : Char := Char.ofNat 34

/-- The single-quote character. -/
def squote : Char := Char.ofNat 39

/-- Local scanning state of `strip_comments`: `quote_open` says whether we are
inside a quoted span, `quote_chars` the characters accepted as quote
delimiters, exactly the two locals established at the top of the Python
function. -/
structure QuoteState where
  quote_open : Bool
  quote_chars : List Char
  deriving DecidableEq, Repr

/-- `open_quote` from `strip_comments`.  In the source it executes
`quote_open = True; quote_chars = [quote_char]`, but Python 2 has no
`nonlocal`: those assignments bind fresh variables local to `open_quote`
itself, so the enclosing function's state is left unchanged.  The embedding
therefore returns the state unmodified (the parameter is received and
discarded exactly as the source's assignments are). -/
def open_quote (st : QuoteState) (_quote_char : Char) : QuoteState := st

/-- `close_quote` from `strip_comments`.  Like `open_quote`, its assignments
`quote_open = False; quote_chars = ['"', "'"]` create locals of `close_quote`
and never reach the enclosing scope, so the state is returned unchanged. -/
def close_quote (st : QuoteState) : QuoteState := st

/-- The character loop of `strip_comments`: at an unquoted `#` return the
prefix scanned so far (`line[:i]`); otherwise update the quote state when the
character is in `quote_chars` and continue.  Returns the whole line when no
unquoted `#` is found. -/
def stripCommentsLoop : List Char → QuoteState → List Char
  | [], _ => []
  | c :: rest, st =>
    if c = '#' ∧ st.quote_open = false then []
    else if c ∈ st.quote_chars then
      c :: stripCommentsLoop rest (if st.quote_open then close_quote st else open_quote st c)
    else
      c :: stripCommentsLoop rest st

/-- `strip_comments` from `Gui.from_string`: scan the line with
`quote_open = False` and `quote_chars = ['"', "'"]` and cut at the first `#`
the scan considers unquoted. -/
def strip_comments (line : String) : String :=
  (stripCommentsLoop line.toList ⟨false, [dquote, squote]⟩).asString

/-- Length of the leading `[ \t]*` run with each tab counted as four spaces,
as computed by `get_indentation_level` via
`len(match.group(0).replace('\t', '    '))`. -/
def countIndent : List Char → Nat
  | [] => 0
  | c :: rest =>
    if c = ' ' then 1 + countIndent rest
    else if c = '\t' then 4 + countIndent rest
    else 0

/-- `get_indentation_level` from `parse_line`. -/
def get_indentation_level (line : String) : Nat :=
  countIndent line.toList

/-- Index of the first `:` in the character list, `none` when there is none
(Python's `line.find(':')` returning `-1`). -/
def findColon : List Char → Option Nat
  | [] => none
  | c :: rest => if c = ':' then some 0 else (findColon rest).map (· + 1)

/-- `split_control` from `parse_line`: split at the first colon.  When
`find` returns `-1`, Python's slices `line[:-1]` and `line[0:]` produce the
line without its last character and the whole line, both then stripped. -/
def split_control (line : String) : String × String :=
  match findColon line.toList with
  | some i =>
      (pyStrip (line.toList.take i).asString,
       pyStrip (line.toList.drop (i + 1)).asString)
  | none =>
      (pyStrip line.toList.dropLast.asString, pyStrip line)

/-- The character class `[A-Za-z0-9_]` of the parent-name regex. -/
def isWordChar (c : Char) : Bool := c.isAlpha || c.isDigit || c = '_'

/-- The tail `"? ?` of the parent-name regex: greedily consume an optional
closing double quote then an optional space; returns the consumed
characters. -/
def closeChars : List Char → List Char
  | [] => []
  | c :: rest =>
    if c = dquote then
      c :: (match rest with
            | c2 :: _ => if c2 = ' ' then [' '] else []
            | [] => [])
    else if c = ' ' then [' ']
    else []

/-- The fragment `"?([A-Za-z0-9_]+)"? ?` of the parent-name regex, matched
against a suffix of the command: returns `(consumed, value)` where `consumed`
is the full matched text and `value` the captured group, or `none`.  The
opening quote is tried greedily; when it is taken the group must still be a
nonempty word-character run (the quoteless alternative would fail on the quote
character itself, so no further backtracking arises). -/
def matchValue (cs : List Char) : Option (List Char × List Char) :=
  match cs with
  | [] => none
  | c :: rest =>
    if c = dquote then
      let v := rest.takeWhile isWordChar
      if v = [] then none
      else some (c :: v ++ closeChars (rest.dropWhile isWordChar), v)
    else
      let v := cs.takeWhile isWordChar
      if v = [] then none
      else some (v ++ closeChars (cs.dropWhile isWordChar), v)

/-- The mandatory space before the value in the parent-name regex, followed by
`matchValue`. -/
def matchSpaceValue : List Char → Option (List Char × List Char)
  | [] => none
  | c :: rest =>
    if c = ' ' then (matchValue rest).map (fun p => (c :: p.1, p.2)) else none

/-- The alternative of `(?:arent)? ...` that consumes `arent` before the
space and value. -/
def matchArent (cs : List Char) : Option (List Char × List Char) :=
  match cs with
  | a :: r :: e :: n :: t :: rest =>
    if a = 'a' ∧ r = 'r' ∧ e = 'e' ∧ n = 'n' ∧ t = 't' then
      (matchSpaceValue rest).map (fun p => (a :: r :: e :: n :: t :: p.1, p.2))
    else none
  | _ => none

/-- The fragment `(?:arent)? ...` after `-p`: greedily try to consume `arent`
first, falling back to the bare `-p` alternative on failure, as a backtracking
regex engine does. -/
def matchAfterP (cs : List Char) : Option (List Char × List Char) :=
  matchArent cs <|> matchSpaceValue cs

/-- Attempt to match the whole regex `' -p(?:arent)? "?([A-Za-z0-9_]+)"? ?'`
at the start of `cs`; returns `(matched text, captured group)`. -/
def matchAt (cs : List Char) : Option (List Char × List Char) :=
  match cs with
  | c1 :: c2 :: c3 :: rest =>
    if c1 = ' ' ∧ c2 = '-' ∧ c3 = 'p' then
      (matchAfterP rest).map (fun p => (c1 :: c2 :: c3 :: p.1, p.2))
    else none
  | _ => none

/-- `re.search` of the parent-name regex: try each start position from the
left, returning the leftmost match as `(group(0), group(1))`. -/
def searchFrom : List Char → Option (List Char × List Char)
  | [] => none
  | c :: rest =>
    match matchAt (c :: rest) with
    | some p => some p
    | none => searchFrom rest

/-- `re.search(r' -p(?:arent)? "?([A-Za-z0-9_]+)"? ?', command)` as used in
`Control.from_string`, with both the full match and the captured group as
strings. -/
def parent_name_search (command : String) : Option (String × String) :=
  (searchFrom command.toList).map (fun p => (p.1.asString, p.2.asString))

/-- Replace every occurrence of `pat` in `s` by `rep`, scanning left to right
over non-overlapping occurrences (Python's `str.replace`).  The first argument
is fuel, instantiated with the length of `s`. -/
def replaceAllAux : Nat → List Char → List Char → List Char → List Char
  | 0, s, _, _ => s
  | Nat.succ n, s, pat, rep =>
    match s with
    | [] => []
    | c :: rest =>
      if pat ≠ [] ∧ pat.isPrefixOf (c :: rest) then
        rep ++ replaceAllAux n (rest.drop (pat.length - 1)) pat rep
      else
        c :: replaceAllAux n rest pat rep

/-- `command.replace(pat, rep)` for a nonempty pattern. -/
def pyReplace (s pat rep : String) : String :=
  (replaceAllAux s.toList.length s.toList pat.toList rep.toList).asString

/-- `command.split()`: split on whitespace runs, discarding empty pieces. -/
def pySplit (s : String) : List String :=
  ((splitWsAux s.toList []).map List.asString).filter (fun t => t ≠ "")

/-- A UI control declaration: name, control type, creation flags and optional
parent name, exactly the four attributes set by `Control.__init__`. -/
structure Control where
  name : String
  control_type : String
  creation_flags : String
  parent_name : Option String
  deriving DecidableEq, Repr

/-- `Control.from_string`: extract an explicit `-p`/`-parent` value when the
regex matches (replacing the matched text by a single space and overriding the
stack-inferred parent), then split the command into its first token (the
control type) and the space-rejoined rest (the creation flags).
`command_tokens[0]` on an empty token list raises `IndexError`. -/
def Control.from_string (name command : String) (parent_name : Option String) :
    Except PyErr Control :=
  let extracted :=
    match parent_name_search command with
    | some p => (pyReplace command p.1 " ", some p.2)
    | none => (command, parent_name)
  match pySplit extracted.1 with
  | [] => .error .indexError
  | t :: rest => .ok ⟨name, t, joinSpace rest, extracted.2⟩

/-- The control stack's content: `(indentation level, control name)` pairs
with the top of the Python list (`self._controls[-1]`) at the head, the
sentinel `(-1, None)` at the bottom. -/
abbrev StackT := List (Int × Option String)

/-- `ControlStack.pop`: pop entries while the top's level is `≥` the given
level.  Indexing `self._controls[-1]` on an exhausted list raises
`IndexError`. -/
def stackPop : StackT → Int → Except PyErr StackT
  | [], _ => .error .indexError
  | (d0, n) :: rest, d =>
    if d0 ≥ d then stackPop rest d else .ok ((d0, n) :: rest)

/-- `ControlStack.top_control`: the name in the topmost entry. -/
def stackTop : StackT → Except PyErr (Option String)
  | [] => .error .indexError
  | (_, n) :: _ => .ok n

/-- `ControlStack.push`: assert the new level strictly exceeds the top's
level, then push.  A failed `assert` raises `AssertionError`; indexing the
empty list raises `IndexError` first. -/
def stackPush : StackT → Int → Option String → Except PyErr StackT
  | [], _, _ => .error .indexError
  | (d0, n0) :: rest, d, n =>
    if d > d0 then .ok ((d, n) :: (d0, n0) :: rest)
    else .error .assertionError

/-- `parse_line`: map each meaningful line to its
`(indentation level, name, command)` triple. -/
def parse_line (lines : List String) : List (Nat × String × String) :=
  lines.map (fun l =>
    (get_indentation_level l, (split_control l).1, (split_control l).2))

/-- The parsing loop of `Gui.from_string`: for each declaration triple, pop
the stack to below the line's level, build the `Control` with the stack top as
inferred parent, and push the new `(level, name)` entry. -/
def parseLoop : List (Nat × String × String) → StackT → Except PyErr (List Control)
  | [], _ => .ok []
  | (d, name, cmd) :: rest, stack =>
    match stackPop stack (d : Int) with
    | .error e => .error e
    | .ok stack2 =>
      match stackTop stack2 with
      | .error e => .error e
      | .ok parent =>
        match Control.from_string name cmd parent with
        | .error e => .error e
        | .ok ctl =>
          match stackPush stack2 (d : Int) (some name) with
          | .error e => .error e
          | .ok stack3 =>
            match parseLoop rest stack3 with
            | .error e => .error e
            | .ok tail => .ok (ctl :: tail)

/-- The ordered control list produced by `Gui.from_string`: split the text
into lines, strip comments, drop blank lines, and run the parsing loop over
the declaration triples starting from the sentinel stack. -/
def controls_from_string (s : String) : Except PyErr (List Control) :=
  let commentless := (pySplitlines s).map strip_comments
  let meaningful := commentless.filter (fun l => pyStrip l ≠ "")
  parseLoop (parse_line meaningful) [(-1, none)]

/-- A Python dict as an association list in insertion order; assignment
updates an existing key in place and appends a new one. -/
def dictSet (d : List (String × Control)) (k : String) (v : Control) :
    List (String × Control) :=
  match d with
  | [] => [(k, v)]
  | (k0, v0) :: rest => if k0 = k then (k, v) :: rest else (k0, v0) :: dictSet rest k v

/-- Dict lookup; `none` corresponds to Python's `KeyError` on
`self._control_lookup[key]`. -/
def dictGet (d : List (String × Control)) (k : String) : Option Control :=
  match d with
  | [] => none
  | (k0, v0) :: rest => if k0 = k then some v0 else dictGet rest k

/-- The `Gui`: the ordered control sequence and the name index, the two
attributes set by `Gui.__init__`. -/
structure Gui where
  _controls : List Control
  _control_lookup : List (String × Control)
  deriving DecidableEq, Repr

/-- `Gui.add`: append to the sequence and index the control by its name. -/
def Gui.add (g : Gui) (control : Control) : Gui :=
  ⟨g._controls ++ [control], dictSet g._control_lookup control.name control⟩

/-- `Gui.__getitem__`: name lookup in the index. -/
def Gui.getItem (g : Gui) (key : String) : Option Control :=
  dictGet g._control_lookup key

/-- `Gui.__init__`: start empty and `add` each control in order. -/
def Gui.mk0 (controls : List Control) : Gui :=
  controls.foldl Gui.add ⟨[], []⟩

/-- `Gui.from_string`: parse the declaration text and build the `Gui` from
the resulting control list. -/
def Gui.from_string (s : String) : Except PyErr Gui :=
  (controls_from_string s).map Gui.mk0

/-! ### `Control.edit` and its `thunk_commands` helper

Python values passed as flag values: `True` (the `edit` flag), strings,
user callables (tagged by an identifier), and the `lambda _: value()` thunk
that `thunk_commands` installs.  That lambda closes over the single variable
`value` of the enclosing `thunk_commands` frame — shared by every thunk the
call produces — so invoking a thunk later calls whatever `value` held after
the loop's final iteration. -/
inductive PyVal where
  | pyTrue
  | str (s : String)
  | func (id : Nat)
  | thunk
  deriving DecidableEq, Repr

/-- `hasattr(value, '__call__')`: user callables and lambdas are callable. -/
def isCallable : PyVal → Bool
  | .func _ => true
  | .thunk => true
  | _ => false

/-- `needle in hay` for strings as character lists: the needle occurs as a
contiguous run. -/
def listIsInfix (needle hay : List Char) : Bool :=
  match hay with
  | [] => needle = []
  | _ :: rest => needle.isPrefixOf hay || listIsInfix needle rest

/-- `'command' in flag.lower()`. -/
def isCommandFlag (flag : String) : Bool :=
  listIsInfix "command".toList (pyToLower flag).toList

/-- The loop of `thunk_commands` over the flag dict in iteration order:
each command flag holding a callable is overwritten with the shared thunk;
the loop variable `value` retains the last iterated entry's (original) value
once the loop ends.  Returns the updated dict and that final `value`. -/
def thunkLoop : List (String × PyVal) → Option PyVal →
    List (String × PyVal) × Option PyVal
  | [], value => ([], value)
  | (flag, v) :: rest, _ =>
    let entry := if isCommandFlag flag ∧ isCallable v then (flag, PyVal.thunk) else (flag, v)
    let out := thunkLoop rest (some v)
    (entry :: out.1, out.2)

/-- `thunk_commands`: run the loop with `value` initially unbound. -/
def thunk_commands (flags : List (String × PyVal)) :
    List (String × PyVal) × Option PyVal :=
  thunkLoop flags none

/-- Dict assignment for flag dicts (update in place or append). -/
def dictSetV (d : List (String × PyVal)) (k : String) (v : PyVal) :
    List (String × PyVal) :=
  match d with
  | [] => [(k, v)]
  | (k0, v0) :: rest => if k0 = k then (k, v) :: rest else (k0, v0) :: dictSetV rest k v

/-- The flag processing of `Control.edit`: set `flags['edit'] = True`, then
thunk the command flags.  The result is the flag dict handed to
`_call_command` together with the shared `value` each installed thunk will
later invoke. -/
def Control.edit_flags (flags : List (String × PyVal)) :
    List (String × PyVal) × Option PyVal :=
  thunk_commands (dictSetV flags "edit" PyVal.pyTrue)

/-- The outcome of the host later invoking one of the installed thunks with
its positional argument: `lambda _: value()` calls the shared `value` with
zero arguments — a user callable is invoked, anything else raises
`TypeError` (and an unbound `value` would raise `NameError`; both are
non-invocations of a user callback). -/
inductive CallResult where
  | invoked (id : Nat)
  | typeError
  | nameError
  deriving DecidableEq, Repr

/-- Calling the shared `value` with zero arguments. -/
def callWrapper : Option PyVal → CallResult
  | some (.func i) => .invoked i
  | some _ => .typeError
  | none => .nameError

/-! ### `CallbackNotifier` (src/state.py)

Callbacks are modelled by natural-number identities (distinct numbers are
distinct Python function objects); the `__callbacks` dict maps event names to
callback lists in insertion order. -/

structure CallbackNotifier where
  /-- `self.__class__.__name__`, used in the unsupported-event message. -/
  className : String
  /-- `self.__callbacks : str -> [callable]`. -/
  callbacks : List (String × List Nat)
  /-- `self.__supported_events`. -/
  supported_events : List String
  deriving DecidableEq, Repr

/-- Lookup in the `__callbacks` dict. -/
def dictGetL (d : List (String × List Nat)) (k : String) : Option (List Nat) :=
  match d with
  | [] => none
  | (k0, v0) :: rest => if k0 = k then some v0 else dictGetL rest k

/-- Assignment in the `__callbacks` dict. -/
def dictSetL (d : List (String × List Nat)) (k : String) (v : List Nat) :
    List (String × List Nat) :=
  match d with
  | [] => [(k, v)]
  | (k0, v0) :: rest => if k0 = k then (k, v) :: rest else (k0, v0) :: dictSetL rest k v

/-- The message of the `TypeError` raised by `__check_support`. -/
def unsupportedMsg (cls event_name : String) : String :=
  cls ++ " does not support an event named \"" ++ event_name ++ "\"!"

/-- `CallbackNotifier.__check_support`: raise `TypeError` when the event name
is not in the supported list. -/
def CallbackNotifier.check_support (n : CallbackNotifier) (event_name : String) :
    Except PyErr Unit :=
  if event_name ∈ n.supported_events then .ok ()
  else .error (.typeError (unsupportedMsg n.className event_name))

/-- The `for callback in callbacks` loop of `register`: append each callback
not already present. -/
def registerLoop : List Nat → List Nat → List Nat
  | l, [] => l
  | l, cb :: rest => registerLoop (if cb ∈ l then l else l ++ [cb]) rest

/-- `CallbackNotifier.register`: check support, default the event's list to
`[]` (the `if event_name not in self.__callbacks` branch), then append the
not-yet-present callbacks in order. -/
def CallbackNotifier.register (n : CallbackNotifier) (event_name : String)
    (cbs : List Nat) : Except PyErr CallbackNotifier :=
  match n.check_support event_name with
  | .error e => .error e
  | .ok _ =>
    let l := (dictGetL n.callbacks event_name).getD []
    .ok { n with callbacks := dictSetL n.callbacks event_name (registerLoop l cbs) }

/-- `list.remove`: drop the first occurrence. -/
def removeFirst : List Nat → Nat → List Nat
  | [], _ => []
  | x :: rest, cb => if x = cb then rest else x :: removeFirst rest cb

/-- The `for callback in callbacks` loop of `unregister`: remove each callback
that is present. -/
def unregisterLoop : List Nat → List Nat → List Nat
  | l, [] => l
  | l, cb :: rest => unregisterLoop (if cb ∈ l then removeFirst l cb else l) rest

/-- `CallbackNotifier.unregister`: check support; when the event has no list
yet, return unchanged; otherwise remove the given callbacks. -/
def CallbackNotifier.unregister (n : CallbackNotifier) (event_name : String)
    (cbs : List Nat) : Except PyErr CallbackNotifier :=
  match n.check_support event_name with
  | .error e => .error e
  | .ok _ =>
    match dictGetL n.callbacks event_name with
    | none => .ok n
    | some l =>
      .ok { n with callbacks := dictSetL n.callbacks event_name (unregisterLoop l cbs) }

/-- `CallbackNotifier._notify`: check support and execute every registered
callback in order; the returned list is the sequence of callback invocations
performed. -/
def CallbackNotifier.notifyRun (n : CallbackNotifier) (event_name : String) :
    Except PyErr (List Nat) :=
  match n.check_support event_name with
  | .error e => .error e
  | .ok _ =>
    match dictGetL n.callbacks event_name with
    | none => .ok []
    | some l => .ok l

/-- The callback list an event currently has (`[]` when the event was never
registered), the list `_notify` iterates over. -/
def cbListOf (n : CallbackNotifier) (e : String) : List Nat :=
  (dictGetL n.callbacks e).getD []

/-- A sequence of `register` calls on the same event, one list of callbacks
per call. -/
def registerSeq (n : CallbackNotifier) (e : String) :
    List (List Nat) → Except PyErr CallbackNotifier
  | [] => .ok n
  | cbs :: rest =>
    match n.register e cbs with
    | .ok n2 => registerSeq n2 e rest
    | .error err => .error err

/-! ## Theorems about the embedded program -/

/-! ### Helper lemmas -/

theorem dictGet_dictSet_self (d : List (String × Control)) (k : String) (v : Control) :
    dictGet (dictSet d k v) k = some v := by
  induction d with
  | nil => simp [dictSet, dictGet]
  | cons hd tl ih =>
    obtain ⟨k0, v0⟩ := hd
    by_cases h : k0 = k <;> simp [dictSet, dictGet, h, ih]

theorem dictGet_dictSet_isSome (d : List (String × Control)) (k k2 : String) (v : Control)
    (h : (dictGet d k2).isSome) : (dictGet (dictSet d k v) k2).isSome := by
  induction d with
  | nil => simp [dictGet] at h
  | cons hd tl ih =>
    obtain ⟨k0, v0⟩ := hd
    by_cases hk : k0 = k
    · subst hk
      by_cases hk2 : k0 = k2
      · simp [dictSet, dictGet, hk2]
      · simp only [dictGet, if_neg hk2] at h
        simp [dictSet, dictGet, hk2, h]
    · by_cases hk2 : k0 = k2
      · subst hk2
        simp [dictSet, dictGet, hk]
      · simp only [dictGet, if_neg hk2] at h
        simp [dictSet, dictGet, hk, hk2, ih h]

/-- Every control in the ordered sequence has its name present in the index. -/
def GuiIndexed (g : Gui) : Prop :=
  ∀ c ∈ g._controls, (g.getItem c.name).isSome

theorem guiIndexed_add (g : Gui) (c : Control) (h : GuiIndexed g) :
    GuiIndexed (g.add c) := by
  intro c2 hc2
  simp only [Gui.add, List.mem_append, List.mem_singleton] at hc2
  rcases hc2 with hc2 | rfl
  · exact dictGet_dictSet_isSome _ _ _ _ (h c2 hc2)
  · simp [Gui.getItem, Gui.add, dictGet_dictSet_self]

theorem guiIndexed_foldl (cs : List Control) :
    ∀ g : Gui, GuiIndexed g → GuiIndexed (cs.foldl Gui.add g) := by
  induction cs with
  | nil => intro g h; exact h
  | cons c rest ih =>
    intro g h
    exact ih (g.add c) (guiIndexed_add g c h)

theorem guiIndexed_mk0 (cs : List Control) : GuiIndexed (Gui.mk0 cs) := by
  refine guiIndexed_foldl cs ⟨[], []⟩ ?_
  intro c hc
  simp at hc

/-- Claim C1 (code evaluation at the failing input): contrary to the claim, a
`#` inside a double-quoted span does truncate the line — `open_quote` and
`close_quote` assign Python-2 locals, never the enclosing `quote_open`, so the
scan always believes it is outside quotes and cuts the quoted flag value
`"a # b"` short. -/
theorem strip_comments_truncates_inside_quotes :
    strip_comments "name: type -label \"a # b\"" = "name: type -label \"a " := by
  rfl

/-- Claim C2 (code evaluation at the failing input): with two distinct
command-flag callbacks, `thunk_commands` installs wrappers that all close over
the single loop variable `value`; after `edit` has appended `edit = True` and
the loop has run, that shared variable holds `True`, so invoking either
wrapper calls `True()` (a `TypeError`) — neither wrapper invokes its own
flag's original callback. -/
theorem edit_wrappers_share_final_value :
    Control.edit_flags [("aCommand", PyVal.func 1), ("bCommand", PyVal.func 2)] =
      ([("aCommand", PyVal.thunk), ("bCommand", PyVal.thunk), ("edit", PyVal.pyTrue)],
        some PyVal.pyTrue)
    ∧ callWrapper (some PyVal.pyTrue) = CallResult.typeError := by
  constructor
  · rfl
  · rfl

/-- Claim C3 (counterexample): a meaningful line with no colon does not make
parsing fail — `find` returns `-1`, the slices yield the line minus its last
character as the name and the whole line as the command, and a `Control` is
produced. -/
theorem no_colon_line_parses_without_error :
    controls_from_string "nocolon here" =
      Except.ok [⟨"nocolon her", "nocolon", "here", none⟩] := by
  rfl

/-- Claim C5: the three-line declaration parses to exactly three controls in
order — `root` with no parent, `btn1` with parent `root` inferred from
indentation, and `btn2` with parent `root` taken from the explicit `-p` flag,
which is removed from `btn2`'s creation flags. -/
theorem parse_three_controls :
    controls_from_string
        "root: rowLayout -numberOfColumns 2\n  btn1: button -label \"OK\"\n  btn2: button -label \"Cancel\" -p root" =
      Except.ok [⟨"root", "rowLayout", "-numberOfColumns 2", none⟩,
                 ⟨"btn1", "button", "-label \"OK\"", some "root"⟩,
                 ⟨"btn2", "button", "-label \"Cancel\"", some "root"⟩] := by
  rfl

/-- Claim C10 (counterexample): an explicit parent value containing a hyphen
is not left in the creation flags with the stack-inferred parent used —
instead the regex matches the leading word-character run, extracts `my` as the
parent of `-p my-name`, and leaves only `-name` in the flags. -/
theorem hyphenated_parent_value_is_extracted :
    Control.from_string "btn" "button -p my-name" (some "layout") ≠
      Except.ok ⟨"btn", "button", "-p my-name", some "layout"⟩
    ∧ Control.from_string "btn" "button -p my-name" (some "layout") =
      Except.ok ⟨"btn", "button", "-name", some "my"⟩ := by
  constructor
  · decide
  · rfl

/-- Claim C4: for every `Gui` built by a sequence of `add` operations
(duplicate names included), `add(c)` followed by lookup of `c.name` returns
exactly the added control, and every control in the ordered sequence remains
retrievable by its name through indexed lookup. -/
theorem gui_add_indexes_control (cs : List Control) (c c2 : Control)
    (h : c2 ∈ ((Gui.mk0 cs).add c)._controls) :
    ((Gui.mk0 cs).add c).getItem c.name = some c ∧
    (((Gui.mk0 cs).add c).getItem c2.name).isSome := by
  constructor
  · simp [Gui.getItem, Gui.add, dictGet_dictSet_self]
  · exact guiIndexed_add (Gui.mk0 cs) c (guiIndexed_mk0 cs) c2 h

/-- Witness for `gui_add_indexes_control` at a two-control `Gui`. -/
theorem gui_add_indexes_control_witness :
    ((Gui.mk0 [⟨"a", "button", "", none⟩]).add ⟨"b", "text", "", none⟩).getItem "b" =
      some ⟨"b", "text", "", none⟩ ∧
    (((Gui.mk0 [⟨"a", "button", "", none⟩]).add ⟨"b", "text", "", none⟩).getItem "a").isSome := by
  have h := gui_add_indexes_control [⟨"a", "button", "", none⟩] ⟨"b", "text", "", none⟩
    ⟨"a", "button", "", none⟩ (by decide)
  exact ⟨h.1, h.2⟩

/-! ### The control stack never fails its push assertion (C7) -/

theorem stackPop_cases (l : StackT) (d : Int) :
    stackPop l d = .error .indexError ∨
    ∃ d0 n r, stackPop l d = .ok ((d0, n) :: r) ∧ d0 < d := by
  induction l with
  | nil => left; rfl
  | cons hd tl ih =>
    obtain ⟨d0, n⟩ := hd
    by_cases h : d0 ≥ d
    · simpa [stackPop, h] using ih
    · right
      exact ⟨d0, n, tl, by simp [stackPop, h], lt_of_not_le h⟩

theorem from_string_cases (name cmd : String) (p : Option String) :
    (∃ c, Control.from_string name cmd p = .ok c) ∨
    Control.from_string name cmd p = .error .indexError := by
  unfold Control.from_string
  rcases hps : parent_name_search cmd with _ | pr
  · rcases hsp : pySplit cmd with _ | ⟨t, ts⟩ <;> simp [hsp]
  · rcases hsp : pySplit (pyReplace cmd pr.1 " ") with _ | ⟨t, ts⟩ <;> simp [hsp]

theorem parseLoop_cases (ts : List (Nat × String × String)) :
    ∀ stack : StackT,
      (∃ l, parseLoop ts stack = .ok l) ∨ parseLoop ts stack = .error .indexError := by
  induction ts with
  | nil => intro stack; exact Or.inl ⟨[], rfl⟩
  | cons hd tl ih =>
    obtain ⟨d, name, cmd⟩ := hd
    intro stack
    rcases stackPop_cases stack (d : Int) with hpop | ⟨d0, n, r, hpop, hlt⟩
    · right
      simp [parseLoop, hpop]
    · rcases from_string_cases name cmd n with ⟨c, hfs⟩ | hfs
      · rcases ih (((d : Int), some name) :: (d0, n) :: r) with ⟨l, hrec⟩ | hrec
        · left
          exact ⟨c :: l, by simp [parseLoop, hpop, hfs, stackTop, stackPush, hlt, hrec]⟩
        · right
          simp [parseLoop, hpop, hfs, stackTop, stackPush, hlt, hrec]
      · right
        simp [parseLoop, hpop, hfs, stackTop]

/-- Claim C7: for every declaration text, the assertion in
`ControlStack.push` never fails: parsing either succeeds or raises
`IndexError` (from an empty command's `command_tokens[0]`), but never
`AssertionError` — each push follows a pop at the same depth, which leaves a
top entry strictly below the pushed level. -/
theorem parse_never_assertion_error (s : String) :
    (∃ g, Gui.from_string s = .ok g) ∨ Gui.from_string s = .error .indexError := by
  have hdef : controls_from_string s =
      parseLoop
        (parse_line (((pySplitlines s).map strip_comments).filter (fun l => pyStrip l ≠ "")))
        [(-1, none)] := rfl
  rcases parseLoop_cases
      (parse_line (((pySplitlines s).map strip_comments).filter (fun l => pyStrip l ≠ "")))
      [(-1, none)] with ⟨l, hp⟩ | hp
  · exact Or.inl ⟨Gui.mk0 l, by unfold Gui.from_string; rw [hdef, hp]; rfl⟩
  · exact Or.inr (by unfold Gui.from_string; rw [hdef, hp]; rfl)

/-! ### Indentation-driven parent inference (C6) -/

theorem from_string_ok_of (cmd t : String) (ts : List String)
    (hps : parent_name_search cmd = none) (hsp : pySplit cmd = t :: ts)
    (name : String) (p : Option String) :
    Control.from_string name cmd p = .ok ⟨name, t, joinSpace ts, p⟩ := by
  simp [Control.from_string, hps, hsp]

/-- Claim C6: for every five-line declaration with indentation depths
`[0, 2, 2, 4, 0]` and no explicit `-p` flags (and each command nonempty, so
that a control type token exists), the inferred parents are: none for line 0,
line 0 for lines 1 and 2, the last depth-2 line (line 2) for line 3, and none
for line 4 — the final depth-0 line resets ancestry entirely. -/
theorem indentation_chain_inference
    (n0 n1 n2 n3 n4 c0 c1 c2 c3 c4 : String)
    (h0 : parent_name_search c0 = none) (h1 : parent_name_search c1 = none)
    (h2 : parent_name_search c2 = none) (h3 : parent_name_search c3 = none)
    (h4 : parent_name_search c4 = none)
    (s0 : pySplit c0 ≠ []) (s1 : pySplit c1 ≠ []) (s2 : pySplit c2 ≠ [])
    (s3 : pySplit c3 ≠ []) (s4 : pySplit c4 ≠ []) :
    (parseLoop [(0, n0, c0), (2, n1, c1), (2, n2, c2), (4, n3, c3), (0, n4, c4)]
        [(-1, none)]).map (fun l => l.map Control.parent_name) =
      .ok [none, some n0, some n0, some n2, none] := by
  obtain ⟨t0, ts0, ht0⟩ := List.exists_cons_of_ne_nil s0
  obtain ⟨t1, ts1, ht1⟩ := List.exists_cons_of_ne_nil s1
  obtain ⟨t2, ts2, ht2⟩ := List.exists_cons_of_ne_nil s2
  obtain ⟨t3, ts3, ht3⟩ := List.exists_cons_of_ne_nil s3
  obtain ⟨t4, ts4, ht4⟩ := List.exists_cons_of_ne_nil s4
  simp [parseLoop, stackPop, stackTop, stackPush, Except.map,
        from_string_ok_of c0 t0 ts0 h0 ht0,
        from_string_ok_of c1 t1 ts1 h1 ht1,
        from_string_ok_of c2 t2 ts2 h2 ht2,
        from_string_ok_of c3 t3 ts3 h3 ht3,
        from_string_ok_of c4 t4 ts4 h4 ht4]

/-- Witness for `indentation_chain_inference` with concrete names and
commands. -/
theorem indentation_chain_inference_witness :
    (parseLoop [(0, "a", "ctrl"), (2, "b", "ctrl"), (2, "c", "ctrl"),
        (4, "d", "ctrl"), (0, "e", "ctrl")]
        [(-1, none)]).map (fun l => l.map Control.parent_name) =
      .ok [none, some "a", some "a", some "c", none] :=
  indentation_chain_inference "a" "b" "c" "d" "e" "ctrl" "ctrl" "ctrl" "ctrl" "ctrl"
    rfl rfl rfl rfl rfl (by decide) (by decide) (by decide) (by decide) (by decide)

/-! ### `CallbackNotifier` (C8, C9) -/

theorem dictGetL_dictSetL_self (d : List (String × List Nat)) (k : String) (v : List Nat) :
    dictGetL (dictSetL d k v) k = some v := by
  induction d with
  | nil => simp [dictSetL, dictGetL]
  | cons hd tl ih =>
    obtain ⟨k0, v0⟩ := hd
    by_cases h : k0 = k <;> simp [dictSetL, dictGetL, h, ih]

theorem registerLoop_append (l cbs : List Nat) : ∃ t, registerLoop l cbs = l ++ t := by
  induction cbs generalizing l with
  | nil => exact ⟨[], by simp [registerLoop]⟩
  | cons cb rest ih =>
    by_cases h : cb ∈ l
    · simpa [registerLoop, h] using ih l
    · obtain ⟨t, ht⟩ := ih (l ++ [cb])
      exact ⟨[cb] ++ t, by simp [registerLoop, h, ht]⟩

theorem registerLoop_nodup (cbs : List Nat) :
    ∀ l : List Nat, l.Nodup → (registerLoop l cbs).Nodup := by
  induction cbs with
  | nil => intro l h; simpa [registerLoop] using h
  | cons cb rest ih =>
    intro l h
    by_cases hm : cb ∈ l
    · simpa [registerLoop, hm] using ih l h
    · have hnd2 : (l ++ [cb]).Nodup :=
        h.append (List.nodup_singleton cb) (List.disjoint_singleton.2 hm)
      simpa [registerLoop, hm] using ih _ hnd2

theorem registerLoop_mem (cbs : List Nat) :
    ∀ (l : List Nat) (cb : Nat), (cb ∈ l ∨ cb ∈ cbs) → cb ∈ registerLoop l cbs := by
  induction cbs with
  | nil =>
    intro l cb h
    rcases h with h | h
    · simpa [registerLoop] using h
    · cases h
  | cons c rest ih =>
    intro l cb h
    simp only [registerLoop]
    by_cases hm : c ∈ l
    · rw [if_pos hm]
      apply ih
      rcases h with h | h
      · exact Or.inl h
      · rcases List.mem_cons.mp h with rfl | h2
        · exact Or.inl hm
        · exact Or.inr h2
    · rw [if_neg hm]
      apply ih
      rcases h with h | h
      · exact Or.inl (List.mem_append.mpr (Or.inl h))
      · rcases List.mem_cons.mp h with rfl | h2
        · exact Or.inl (List.mem_append.mpr (Or.inr (List.mem_singleton.mpr rfl)))
        · exact Or.inr h2

theorem register_ok (n : CallbackNotifier) (e : String) (cbs : List Nat)
    (hsup : e ∈ n.supported_events) :
    n.register e cbs =
      .ok { n with callbacks := dictSetL n.callbacks e (registerLoop (cbListOf n e) cbs) } := by
  simp [CallbackNotifier.register, CallbackNotifier.check_support, hsup, cbListOf]

theorem notifyRun_ok (n : CallbackNotifier) (e : String) (hsup : e ∈ n.supported_events) :
    n.notifyRun e = .ok (cbListOf n e) := by
  simp only [CallbackNotifier.notifyRun, CallbackNotifier.check_support, if_pos hsup, cbListOf]
  cases dictGetL n.callbacks e <;> simp

theorem registerSeq_props (e : String) (css : List (List Nat)) :
    ∀ n : CallbackNotifier, e ∈ n.supported_events → (cbListOf n e).Nodup →
    ∃ n2, registerSeq n e css = .ok n2 ∧
      n2.supported_events = n.supported_events ∧
      (cbListOf n2 e).Nodup ∧
      (∃ t, cbListOf n2 e = cbListOf n e ++ t) ∧
      (∀ cb : Nat, (cb ∈ cbListOf n e ∨ ∃ cbs ∈ css, cb ∈ cbs) → cb ∈ cbListOf n2 e) := by
  induction css with
  | nil =>
    intro n hsup hnd
    refine ⟨n, rfl, rfl, hnd, ⟨[], by simp⟩, ?_⟩
    intro cb h
    rcases h with h | ⟨cbs, hc, _⟩
    · exact h
    · simp at hc
  | cons cbs rest ih =>
    intro n hsup hnd
    have hreg := register_ok n e cbs hsup
    have hcb1 : cbListOf
        { n with callbacks := dictSetL n.callbacks e (registerLoop (cbListOf n e) cbs) } e =
        registerLoop (cbListOf n e) cbs := by
      simp [cbListOf, dictGetL_dictSetL_self]
    obtain ⟨n2, hseq, hsup2, hnd2, ⟨t, ht⟩, hmem⟩ :=
      ih { n with callbacks := dictSetL n.callbacks e (registerLoop (cbListOf n e) cbs) }
        hsup (by rw [hcb1]; exact registerLoop_nodup cbs _ hnd)
    refine ⟨n2, ?_, hsup2, hnd2, ?_, ?_⟩
    · simp [registerSeq, hreg, hseq]
    · obtain ⟨t0, ht0⟩ := registerLoop_append (cbListOf n e) cbs
      exact ⟨t0 ++ t, by rw [ht, hcb1, ht0, List.append_assoc]⟩
    · intro cb h
      apply hmem
      rcases h with h | ⟨cbs2, hc2, hcbm⟩
      · exact Or.inl (by
          rw [hcb1]
          exact registerLoop_mem cbs (cbListOf n e) cb (Or.inl h))
      · rcases List.mem_cons.mp hc2 with heq | h2
        · exact Or.inl (by
            rw [hcb1]
            exact registerLoop_mem cbs (cbListOf n e) cb (Or.inr (heq ▸ hcbm)))
        · exact Or.inr ⟨cbs2, h2, hcbm⟩

/-- Claim C8: `register` is idempotent for duplicate registration — starting
from a duplicate-free event list, after any sequence of `register` calls on a
supported event, a callback that was registered (in one call or across calls,
any number of times) occurs exactly once in the event's list, earlier
registrations keep their first-insertion positions (the old list is a prefix),
and a subsequent `_notify` invokes exactly that list, so the callback runs
exactly once. -/
theorem register_idempotent_once
    (n : CallbackNotifier) (e : String) (css : List (List Nat)) (cb : Nat)
    (hsup : e ∈ n.supported_events) (hnd : (cbListOf n e).Nodup)
    (hcb : cb ∈ cbListOf n e ∨ ∃ cbs ∈ css, cb ∈ cbs) :
    ∃ n2, registerSeq n e css = .ok n2 ∧
      (cbListOf n2 e).Nodup ∧
      List.count cb (cbListOf n2 e) = 1 ∧
      (∃ t, cbListOf n2 e = cbListOf n e ++ t) ∧
      n2.notifyRun e = .ok (cbListOf n2 e) := by
  obtain ⟨n2, hseq, hsup2, hnd2, happ, hmem⟩ := registerSeq_props e css n hsup hnd
  exact ⟨n2, hseq, hnd2, List.count_eq_one_of_mem hnd2 (hmem cb hcb), happ,
    notifyRun_ok n2 e (hsup2 ▸ hsup)⟩

/-- Witness for `register_idempotent_once`: registering callback `5` three
times over two calls leaves it with a single occurrence. -/
theorem register_idempotent_once_witness :
    ∃ n2, registerSeq ⟨"StateNotifier", [], ["changed"]⟩ "changed" [[5, 5], [5]] = .ok n2 ∧
      (cbListOf n2 "changed").Nodup ∧
      List.count 5 (cbListOf n2 "changed") = 1 ∧
      (∃ t, cbListOf n2 "changed" = cbListOf ⟨"StateNotifier", [], ["changed"]⟩ "changed" ++ t) ∧
      n2.notifyRun "changed" = .ok (cbListOf n2 "changed") :=
  register_idempotent_once ⟨"StateNotifier", [], ["changed"]⟩ "changed" [[5, 5], [5]] 5
    (by decide) (by decide) (Or.inr ⟨[5, 5], by decide, by decide⟩)

/-- Claim C9: every operation of `CallbackNotifier` given an event name
outside the supported set fails with the `TypeError` whose message names the
class and the event; none returns a successor state or invokes a callback. -/
theorem unsupported_event_always_fails
    (n : CallbackNotifier) (e : String) (cbs : List Nat)
    (h : e ∉ n.supported_events) :
    n.register e cbs = .error (.typeError (unsupportedMsg n.className e)) ∧
    n.unregister e cbs = .error (.typeError (unsupportedMsg n.className e)) ∧
    n.notifyRun e = .error (.typeError (unsupportedMsg n.className e)) := by
  refine ⟨?_, ?_, ?_⟩ <;>
    simp [CallbackNotifier.register, CallbackNotifier.unregister,
      CallbackNotifier.notifyRun, CallbackNotifier.check_support, h]

/-- Witness for `unsupported_event_always_fails` at a concrete notifier and
unsupported event name. -/
theorem unsupported_event_always_fails_witness :
    (CallbackNotifier.register ⟨"StateNotifier", [], ["changed"]⟩ "missing" [7] =
      .error (.typeError (unsupportedMsg "StateNotifier" "missing"))) ∧
    (CallbackNotifier.unregister ⟨"StateNotifier", [], ["changed"]⟩ "missing" [7] =
      .error (.typeError (unsupportedMsg "StateNotifier" "missing"))) ∧
    (CallbackNotifier.notifyRun ⟨"StateNotifier", [], ["changed"]⟩ "missing" =
      .error (.typeError (unsupportedMsg "StateNotifier" "missing"))) :=
  unsupported_event_always_fails ⟨"StateNotifier", [], ["changed"]⟩ "missing" [7] (by decide)

/-! ### Colon-less lines (C3) -/

theorem stripCommentsLoop_no_hash (cs : List Char) :
    ∀ st : QuoteState, '#' ∉ cs → stripCommentsLoop cs st = cs := by
  induction cs with
  | nil => intro st _; rfl
  | cons c rest ih =>
    intro st h
    have hc : ¬(c = '#') := fun hh => h (hh ▸ List.mem_cons_self c rest)
    have hrest : '#' ∉ rest := fun hh => h (List.mem_cons_of_mem c hh)
    by_cases hq : c ∈ st.quote_chars
    · simp [stripCommentsLoop, hc, hq, ih _ hrest]
    · simp [stripCommentsLoop, hc, hq, ih st hrest]

theorem strip_comments_no_hash (line : String) (h : '#' ∉ line.toList) :
    strip_comments line = line := by
  unfold strip_comments
  rw [stripCommentsLoop_no_hash line.toList _ h]
  rfl

theorem splitLinesAux_no_newline (cs : List Char) :
    ∀ acc : List Char, '\n' ∉ cs → splitLinesAux cs acc = [acc.reverse ++ cs] := by
  induction cs with
  | nil => intro acc _; simp [splitLinesAux]
  | cons c rest ih =>
    intro acc h
    have hc : ¬(c = '\n') := fun hh => h (hh ▸ List.mem_cons_self c rest)
    have hrest : '\n' ∉ rest := fun hh => h (List.mem_cons_of_mem c hh)
    simp [splitLinesAux, hc, ih (c :: acc) hrest]

theorem pySplitlines_single (s : String) (h : '\n' ∉ s.toList) :
    pySplitlines s = [s] := by
  unfold pySplitlines
  rw [splitLinesAux_no_newline s.toList [] h]
  rfl

theorem findColon_none (cs : List Char) (h : ':' ∉ cs) : findColon cs = none := by
  induction cs with
  | nil => rfl
  | cons c rest ih =>
    have hc : ¬(c = ':') := fun hh => h (hh ▸ List.mem_cons_self c rest)
    have hrest : ':' ∉ rest := fun hh => h (List.mem_cons_of_mem c hh)
    simp [findColon, hc, ih hrest]

/-- Claim C3 (amended): a meaningful declaration line with no colon does not
fail with a malformed-declaration error — no such error exists; `find`
returns `-1`, so the line minus its last character (stripped) becomes the
control name and the entire line (stripped) becomes the command, and parsing
produces a `Control` from that command's tokens. -/
theorem no_colon_line_yields_control (line t : String) (ts : List String)
    (hnl : '\n' ∉ line.toList) (hh : '#' ∉ line.toList) (hc : ':' ∉ line.toList)
    (hne : pyStrip line ≠ "")
    (hsp : pySplit (pyStrip line) = t :: ts)
    (hps : parent_name_search (pyStrip line) = none) :
    controls_from_string line =
      .ok [⟨pyStrip line.toList.dropLast.asString, t, joinSpace ts, none⟩] := by
  have hdef : controls_from_string line =
      parseLoop
        (parse_line (((pySplitlines line).map strip_comments).filter (fun l => pyStrip l ≠ "")))
        [(-1, none)] := rfl
  have hsplitc : split_control line =
      (pyStrip line.toList.dropLast.asString, pyStrip line) := by
    unfold split_control
    rw [findColon_none line.toList hc]
  have hneg : ¬((-1 : Int) ≥ ((get_indentation_level line : Nat) : Int)) := by omega
  have hpos : ((get_indentation_level line : Nat) : Int) > -1 := by omega
  rw [hdef, pySplitlines_single line hnl]
  rw [List.map_cons, List.map_nil, strip_comments_no_hash line hh]
  rw [List.filter_cons_of_pos (by simpa using hne), List.filter_nil]
  simp only [parse_line, List.map_cons, List.map_nil, hsplitc]
  simp [parseLoop, stackPop, stackTop, stackPush, hneg, hpos,
    from_string_ok_of (pyStrip line) t ts hps hsp]

/-- Witness for `no_colon_line_yields_control` at the line `foo bar`. -/
theorem no_colon_line_yields_control_witness :
    controls_from_string "foo bar" = .ok [⟨"foo ba", "foo", "bar", none⟩] :=
  no_colon_line_yields_control "foo bar" "foo" ["bar"]
    (by decide) (by decide) (by decide) (by decide) rfl rfl

/-! ### Characterization of explicit-parent extraction (C10) -/

theorem takeWhile_all (p : Char → Bool) (l : List Char) :
    (l.takeWhile p).all p = true := by
  rw [List.all_eq_true]
  intro x hx
  exact List.mem_takeWhile_imp hx

/-- The suffix consumed by `"? ?` is one of four literal shapes and is an
actual prefix of the remaining input. -/
theorem closeChars_shape (cs : List Char) :
    (closeChars cs = [] ∨ closeChars cs = [dquote] ∨ closeChars cs = [' '] ∨
      closeChars cs = [dquote, ' ']) ∧
    ∃ r, cs = closeChars cs ++ r := by
  cases cs with
  | nil => exact ⟨Or.inl rfl, [], rfl⟩
  | cons c rest =>
    by_cases hq : c = dquote
    · cases rest with
      | nil =>
        refine ⟨Or.inr (Or.inl ?_), [], ?_⟩ <;> simp [closeChars, hq]
      | cons c2 r2 =>
        by_cases hs : c2 = ' '
        · refine ⟨Or.inr (Or.inr (Or.inr ?_)), r2, ?_⟩ <;> simp [closeChars, hq, hs]
        · refine ⟨Or.inr (Or.inl ?_), c2 :: r2, ?_⟩ <;> simp [closeChars, hq, hs]
    · by_cases hsp : c = ' '
      · have hns : ¬(' ' = dquote) := by decide
        refine ⟨Or.inr (Or.inr (Or.inl ?_)), rest, ?_⟩ <;> simp [closeChars, hsp, hns]
      · refine ⟨Or.inl ?_, c :: rest, ?_⟩ <;> simp [closeChars, hq, hsp]

theorem matchValue_sound (cs g v : List Char) (h : matchValue cs = some (g, v)) :
    v ≠ [] ∧ v.all isWordChar = true ∧ (∃ r, cs = g ++ r) ∧
    ∃ q1 close, g = q1 ++ v ++ close ∧ (q1 = [] ∨ q1 = [dquote]) ∧
      (close = [] ∨ close = [dquote] ∨ close = [' '] ∨ close = [dquote, ' ']) := by
  cases cs with
  | nil => simp [matchValue] at h
  | cons c rest =>
    by_cases hq : c = dquote
    · by_cases hv : rest.takeWhile isWordChar = []
      · simp [matchValue, hq, hv] at h
      · simp only [matchValue, if_pos hq, if_neg hv, Option.some.injEq, Prod.mk.injEq] at h
        obtain ⟨hg, hveq⟩ := h
        subst hveq
        obtain ⟨hcc, r, hr⟩ := closeChars_shape (rest.dropWhile isWordChar)
        refine ⟨hv, takeWhile_all isWordChar rest, ⟨r, ?_⟩,
          [dquote], closeChars (rest.dropWhile isWordChar), ?_, Or.inr rfl, hcc⟩
        · rw [← hg]
          have hsplit : rest.takeWhile isWordChar ++ rest.dropWhile isWordChar = rest :=
            List.takeWhile_append_dropWhile isWordChar rest
          calc c :: rest
              = c :: (rest.takeWhile isWordChar ++ rest.dropWhile isWordChar) := by
                rw [hsplit]
            _ = c :: (rest.takeWhile isWordChar ++
                  (closeChars (rest.dropWhile isWordChar) ++ r)) := by rw [← hr]
            _ = (c :: (rest.takeWhile isWordChar ++
                  closeChars (rest.dropWhile isWordChar))) ++ r := by simp
        · rw [← hg, hq]
          simp
    · by_cases hv : (c :: rest).takeWhile isWordChar = []
      · simp [matchValue, hq, hv] at h
      · simp only [matchValue, if_neg hq, if_neg hv, Option.some.injEq, Prod.mk.injEq] at h
        obtain ⟨hg, hveq⟩ := h
        subst hveq
        obtain ⟨hcc, r, hr⟩ := closeChars_shape ((c :: rest).dropWhile isWordChar)
        refine ⟨hv, takeWhile_all isWordChar (c :: rest), ⟨r, ?_⟩,
          [], closeChars ((c :: rest).dropWhile isWordChar), ?_, Or.inl rfl, hcc⟩
        · rw [← hg]
          have hsplit : (c :: rest).takeWhile isWordChar ++ (c :: rest).dropWhile isWordChar =
              c :: rest := List.takeWhile_append_dropWhile isWordChar (c :: rest)
          calc c :: rest
              = (c :: rest).takeWhile isWordChar ++ (c :: rest).dropWhile isWordChar := by
                rw [hsplit]
            _ = (c :: rest).takeWhile isWordChar ++
                  (closeChars ((c :: rest).dropWhile isWordChar) ++ r) := by rw [← hr]
            _ = ((c :: rest).takeWhile isWordChar ++
                  closeChars ((c :: rest).dropWhile isWordChar)) ++ r := by simp
        · rw [← hg]
          simp

theorem matchSpaceValue_sound (cs g v : List Char) (h : matchSpaceValue cs = some (g, v)) :
    v ≠ [] ∧ v.all isWordChar = true ∧ (∃ r, cs = g ++ r) ∧
    ∃ q1 close, g = ' ' :: (q1 ++ v ++ close) ∧ (q1 = [] ∨ q1 = [dquote]) ∧
      (close = [] ∨ close = [dquote] ∨ close = [' '] ∨ close = [dquote, ' ']) := by
  cases cs with
  | nil => simp [matchSpaceValue] at h
  | cons c rest =>
    by_cases hsp : c = ' '
    · simp only [matchSpaceValue, if_pos hsp, Option.map_eq_some'] at h
      obtain ⟨⟨g2, v2⟩, hmv, heq⟩ := h
      simp only [Prod.mk.injEq] at heq
      obtain ⟨hg, hveq⟩ := heq
      subst hveq
      obtain ⟨hne, hall, ⟨r, hr⟩, q1, close, hshape, hq1, hclose⟩ :=
        matchValue_sound rest g2 v2 hmv
      exact ⟨hne, hall, ⟨r, by rw [← hg, hr, List.cons_append]⟩, q1, close,
        by rw [← hg, hsp, hshape], hq1, hclose⟩
    · simp [matchSpaceValue, hsp] at h

theorem matchArent_sound (cs g v : List Char) (h : matchArent cs = some (g, v)) :
    v ≠ [] ∧ v.all isWordChar = true ∧ (∃ r, cs = g ++ r) ∧
    ∃ q1 close, g = 'a' :: 'r' :: 'e' :: 'n' :: 't' :: ' ' :: (q1 ++ v ++ close) ∧
      (q1 = [] ∨ q1 = [dquote]) ∧
      (close = [] ∨ close = [dquote] ∨ close = [' '] ∨ close = [dquote, ' ']) := by
  match cs, h with
  | a :: r :: e :: n :: t :: rest, h =>
    by_cases hok : a = 'a' ∧ r = 'r' ∧ e = 'e' ∧ n = 'n' ∧ t = 't'
    · simp only [matchArent, if_pos hok, Option.map_eq_some'] at h
      obtain ⟨⟨g2, v2⟩, hmv, heq⟩ := h
      obtain ⟨ha, hrr, he, hn, ht⟩ := hok
      subst ha; subst hrr; subst he; subst hn; subst ht
      simp only [Prod.mk.injEq] at heq
      obtain ⟨hg, hveq⟩ := heq
      subst hveq
      obtain ⟨hne, hall, ⟨rr, hr2⟩, q1, close, hshape, hq1, hclose⟩ :=
        matchSpaceValue_sound rest g2 v2 hmv
      refine ⟨hne, hall, ⟨rr, by rw [← hg, hr2]; simp⟩, q1, close, ?_, hq1, hclose⟩
      rw [← hg, hshape]
    · rw [matchArent] at h
      rw [if_neg hok] at h
      exact Option.noConfusion h

theorem matchAfterP_sound (cs g v : List Char) (h : matchAfterP cs = some (g, v)) :
    v ≠ [] ∧ v.all isWordChar = true ∧ (∃ r, cs = g ++ r) ∧
    ∃ mid q1 close, g = mid ++ ' ' :: (q1 ++ v ++ close) ∧
      (mid = [] ∨ mid = ['a', 'r', 'e', 'n', 't']) ∧
      (q1 = [] ∨ q1 = [dquote]) ∧
      (close = [] ∨ close = [dquote] ∨ close = [' '] ∨ close = [dquote, ' ']) := by
  unfold matchAfterP at h
  rcases ho : matchArent cs with _ | p
  · rw [ho, Option.none_orElse] at h
    obtain ⟨hne, hall, ⟨r, hr⟩, q1, close, hshape, hq1, hclose⟩ :=
      matchSpaceValue_sound cs g v h
    exact ⟨hne, hall, ⟨r, hr⟩, [], q1, close, by rw [hshape]; rfl, Or.inl rfl, hq1, hclose⟩
  · rw [ho, Option.some_orElse] at h
    obtain ⟨hne, hall, ⟨r, hr⟩, q1, close, hshape, hq1, hclose⟩ :=
      matchArent_sound cs g v (by rw [ho, h])
    refine ⟨hne, hall, ⟨r, hr⟩, ['a', 'r', 'e', 'n', 't'], q1, close, ?_, Or.inr rfl,
      hq1, hclose⟩
    rw [hshape]
    rfl

theorem matchAt_sound (cs g v : List Char) (h : matchAt cs = some (g, v)) :
    v ≠ [] ∧ v.all isWordChar = true ∧ (∃ r, cs = g ++ r) ∧
    ∃ mid q1 close, g = ' ' :: '-' :: 'p' :: (mid ++ ' ' :: (q1 ++ v ++ close)) ∧
      (mid = [] ∨ mid = ['a', 'r', 'e', 'n', 't']) ∧
      (q1 = [] ∨ q1 = [dquote]) ∧
      (close = [] ∨ close = [dquote] ∨ close = [' '] ∨ close = [dquote, ' ']) := by
  match cs, h with
  | c1 :: c2 :: c3 :: rest, h =>
    by_cases hok : c1 = ' ' ∧ c2 = '-' ∧ c3 = 'p'
    · simp only [matchAt, if_pos hok, Option.map_eq_some'] at h
      obtain ⟨⟨g2, v2⟩, hmv, heq⟩ := h
      obtain ⟨h1, h2, h3⟩ := hok
      subst h1; subst h2; subst h3
      simp only [Prod.mk.injEq] at heq
      obtain ⟨hg, hveq⟩ := heq
      subst hveq
      obtain ⟨hne, hall, ⟨r, hr⟩, mid, q1, close, hshape, hmid, hq1, hclose⟩ :=
        matchAfterP_sound rest g2 v2 hmv
      refine ⟨hne, hall, ⟨r, by rw [← hg, hr]; simp⟩, mid, q1, close, ?_, hmid, hq1, hclose⟩
      rw [← hg, hshape]
    · rw [matchAt] at h
      rw [if_neg hok] at h
      exact Option.noConfusion h

theorem searchFrom_sound (cs : List Char) :
    ∀ g v : List Char, searchFrom cs = some (g, v) →
    v ≠ [] ∧ v.all isWordChar = true ∧ (∃ pre suf, cs = pre ++ g ++ suf) ∧
    ∃ mid q1 close, g = ' ' :: '-' :: 'p' :: (mid ++ ' ' :: (q1 ++ v ++ close)) ∧
      (mid = [] ∨ mid = ['a', 'r', 'e', 'n', 't']) ∧
      (q1 = [] ∨ q1 = [dquote]) ∧
      (close = [] ∨ close = [dquote] ∨ close = [' '] ∨ close = [dquote, ' ']) := by
  induction cs with
  | nil => intro g v h; simp [searchFrom] at h
  | cons c rest ih =>
    intro g v h
    unfold searchFrom at h
    rcases hm : matchAt (c :: rest) with _ | p
    · rw [hm] at h
      obtain ⟨hne, hall, ⟨pre, suf, hps⟩, rest2⟩ := ih g v h
      exact ⟨hne, hall, ⟨c :: pre, suf, by rw [hps]; simp⟩, rest2⟩
    · rw [hm] at h
      have hp : p = (g, v) := Option.some.inj h
      obtain ⟨hne, hall, ⟨r, hr⟩, rest2⟩ :=
        matchAt_sound (c :: rest) g v (by rw [hm, hp])
      exact ⟨hne, hall, ⟨[], r, by simpa using hr⟩, rest2⟩

/-- Claim C10 (amended): `Control.from_string` extracts an explicit parent
only when the command contains a space, `-p` or `-parent`, a space, an
optional double quote, and then a nonempty run of ASCII letters, digits and
underscores; the extracted parent is exactly that run (with an optional
closing quote and one optional trailing space removed as part of the matched
text), so characters following the run — such as the `-name` of
`-p my-name` — are not part of the value and remain in the creation flags,
while a parent written without a separating space after the flag never
matches. -/
theorem parent_search_characterization (cmd g0 v : String)
    (h : parent_name_search cmd = some (g0, v)) :
    v.toList ≠ [] ∧ v.toList.all isWordChar = true ∧
    (∃ pre suf, cmd.toList = pre ++ g0.toList ++ suf) ∧
    ∃ mid q1 close,
      g0.toList = ' ' :: '-' :: 'p' :: (mid ++ ' ' :: (q1 ++ v.toList ++ close)) ∧
      (mid = [] ∨ mid = ['a', 'r', 'e', 'n', 't']) ∧
      (q1 = [] ∨ q1 = [dquote]) ∧
      (close = [] ∨ close = [dquote] ∨ close = [' '] ∨ close = [dquote, ' ']) := by
  unfold parent_name_search at h
  rcases hs : searchFrom cmd.toList with _ | p
  · rw [hs] at h; cases h
  · rw [hs, Option.map_some'] at h
    have hg : p.1.asString = g0 ∧ p.2.asString = v := by
      cases h; exact ⟨rfl, rfl⟩
    have hg1 : g0.toList = p.1 := hg.1 ▸ (rfl : p.1.asString.toList = p.1)
    have hg2 : v.toList = p.2 := hg.2 ▸ (rfl : p.2.asString.toList = p.2)
    rw [hg1, hg2]
    exact searchFrom_sound cmd.toList p.1 p.2 (by rw [hs])

/-- Witness for `parent_search_characterization` on the command
`layout -p root -w 2`, whose match is ` -p root ` with value `root`. -/
theorem parent_search_characterization_witness :
    "root".toList ≠ [] ∧ "root".toList.all isWordChar = true ∧
    (∃ pre suf, "layout -p root -w 2".toList = pre ++ " -p root ".toList ++ suf) ∧
    ∃ mid q1 close,
      " -p root ".toList = ' ' :: '-' :: 'p' :: (mid ++ ' ' :: (q1 ++ "root".toList ++ close)) ∧
      (mid = [] ∨ mid = ['a', 'r', 'e', 'n', 't']) ∧
      (q1 = [] ∨ q1 = [dquote]) ∧
      (close = [] ∨ close = [dquote] ∨ close = [' '] ∨ close = [dquote, ' ']) :=
  parent_search_characterization "layout -p root -w 2" " -p root " "root" rfl

end Melgui
